import Mathlib

/-!
Verification of the Sanitizer module (src/components/modules/sanitizer.ts).

The module has two parts:
* a tree sanitizer (`deepSanitize` / `cleanArray` / `cleanObject` /
  `cleanOneItem`) that walks an arbitrary JSON-like value and cleans every
  string leaf with the applicable rule, and
* a rule composer (`composeToolConfig` / `getInlineToolsConfig` /
  `getAllInlineToolsConfig`) that builds a per-tool rule set from the tool's
  declared sanitize config and the inline-tools base config, memoized in two
  caches (`configCache`, `inlineToolsConfigCache`).

JavaScript values are embedded as the inductive `JVal`; objects are
insertion-ordered association lists.  The opaque cleaning primitive
(`sanitize-html`) is a parameter `cf : CleanFn`; the tree sanitizer also
returns the list of calls made to the primitive, so that "never passed to
the cleaning primitive" is expressible.  The opaque tool registry is a
parameter structure `ToolRegistry`; registry accesses are logged as
`Query` events so that "the registry is queried at most once" is
expressible.  Mutation of the two caches is explicit state passing on
`SanitizerState`.
-/

namespace Sanitizer

/-- JSON-like JavaScript values: strings, numbers, booleans, `null`,
`undefined` (absent), opaque function values (tagged by an id so they can be
compared), arrays, and plain objects with insertion-ordered fields. -/
inductive JVal where
  | str : String → JVal
  | num : Int → JVal
  | boolean : Bool → JVal
  | null : JVal
  | undefined : JVal
  | fn : Nat → JVal
  | arr : List JVal → JVal
  | obj : List (String × JVal) → JVal

/-- Object field lists: insertion-ordered association lists with (in any
object actually built by the code) pairwise distinct keys. -/
abbrev Fields := List (String × JVal)

/-- JavaScript truthiness: `undefined`, `null`, `false`, `0` and `""` are
falsy, everything else (including `{}` and `[]`) is truthy. -/
def truthy : JVal → Bool
  | .undefined => false
  | .null => false
  | .boolean b => b
  | .num n => n != 0
  | .str s => s ≠ ""
  | _ => true

/-- `typeof v === 'object'`: true for objects, arrays and `null`. -/
def typeofObject : JVal → Bool
  | .obj _ => true
  | .arr _ => true
  | .null => true
  | _ => false

/-- `typeof v === 'boolean'`. -/
def typeofBoolean : JVal → Bool
  | .boolean _ => true
  | _ => false

/-- Modelled from the spec: `_.isFunction` from `../utils` (not under
`src/`) — true exactly for callable values. -/
def isFunction : JVal → Bool
  | .fn _ => true
  | _ => false

/-- Modelled from the spec: `_.isEmpty` from `../utils` (not under `src/`)
— a value is empty when it has no enumerable keys. -/
def isEmpty : JVal → Bool
  | .obj fs => fs.isEmpty
  | .arr l => l.isEmpty
  | _ => false

/-- `isRule` (sanitizer.ts line 302): a value counts as an HTML-janitor rule
when `typeof` is `object` (which includes `null`), `boolean`, or it is a
function. -/
def isRule (config : JVal) : Bool :=
  typeofObject config || typeofBoolean config || isFunction config

/-- First-match lookup of a key in an object's field list (JavaScript
property read on an object, `none` meaning `undefined`). -/
def lookupField : Fields → String → Option JVal
  | [], _ => none
  | (k, v) :: rest, key => if k = key then some v else lookupField rest key

/-- JavaScript property read `v[key]` for the values this module reads
fields from (objects; on anything else the module's reads yield
`undefined` or do not arise). -/
def fieldOf (v : JVal) (key : String) : JVal :=
  match v with
  | .obj fs => (lookupField fs key).getD .undefined
  | _ => .undefined

/-- JavaScript property write `o[key] = v` on a field list: overwrite in
place (keeping the key's position) when the key is present, append
otherwise. -/
def setField : Fields → String → JVal → Fields
  | [], key, v => [(key, v)]
  | (k, w) :: rest, key, v =>
    if k = key then (key, v) :: rest else (k, w) :: setField rest key v

/-- One source argument of `Object.assign(target, src)`: an object source
copies its own enumerable fields in order, `null`/`undefined` and the other
primitive sources contribute nothing.  (String sources, which would
contribute index keys, do not arise in this module.) -/
def assignInto (target : Fields) (src : JVal) : Fields :=
  match src with
  | .obj fs => fs.foldl (fun acc p => setField acc p.1 p.2) target
  | _ => target

/-- The opaque cleaning primitive `sanitizeHTML` from the `sanitize-html`
package: given a taint string and a rule value, returns the cleaned
string. -/
abbrev CleanFn := String → JVal → String

/-- One invocation of the cleaning primitive: the string and the rule value
it was called with. -/
abbrev CleanCall := String × JVal

/-- `clean` (sanitizer.ts line 125): direct single-string entry point, just
forwards to the cleaning primitive. -/
def clean (cf : CleanFn) (taintString : String) (customConfig : JVal) : String :=
  cf taintString customConfig

/-- `cleanOneItem` (sanitizer.ts line 285): an object-typed rule (which
includes `null` and arrays) is passed to the primitive as the config;
`false` cleans with the empty config; any other rule passes the string
through.  Also returns the calls made to the primitive. -/
def cleanOneItem (cf : CleanFn) (taintString : String) (rule : JVal) :
    String × List CleanCall :=
  if typeofObject rule then
    (clean cf taintString rule, [(taintString, rule)])
  else
    match rule with
    | .boolean false => (clean cf taintString (.obj []), [(taintString, .obj [])])
    | _ => (taintString, [])

/-- The rule chosen for a field in `cleanObject` (sanitizer.ts line 269):
the rule set's entry for the field when that entry is rule-shaped,
otherwise the parent rule set. -/
def ruleFor (rules : JVal) (fieldName : String) : JVal :=
  if isRule (fieldOf rules fieldName) then fieldOf rules fieldName else rules

mutual

/-- `deepSanitize` (sanitizer.ts line 85): arrays recurse elementwise with
the same rules; object-typed data (which includes `null`, whose `for..in`
iterates nothing and yields `{}`) goes through `cleanObject`; strings go
through `cleanOneItem`; remaining primitives are returned unchanged.  The
second component collects every call made to the cleaning primitive. -/
def deepSanitize (cf : CleanFn) (dataToSanitize rules : JVal) :
    JVal × List CleanCall :=
  match dataToSanitize with
  | .arr items =>
    let r := cleanArray cf items rules
    (.arr r.1, r.2)
  | .obj fields =>
    let r := cleanObjectFields cf fields rules
    (.obj r.1, r.2)
  | .null => (.obj [], [])
  | .str s =>
    let r := cleanOneItem cf s rules
    (.str r.1, r.2)
  | d => (d, [])

/-- `cleanArray` (sanitizer.ts line 243): sanitize each element with the
same rule set. -/
def cleanArray (cf : CleanFn) (items : List JVal) (rules : JVal) :
    List JVal × List CleanCall :=
  match items with
  | [] => ([], [])
  | x :: xs =>
    let hd := deepSanitize cf x rules
    let tl := cleanArray cf xs rules
    (hd.1 :: tl.1, hd.2 ++ tl.2)

/-- The `for..in` body of `cleanObject` (sanitizer.ts line 254): each field
is sanitized with `ruleFor rules fieldName`, keys are kept in order. -/
def cleanObjectFields (cf : CleanFn) (fields : Fields) (rules : JVal) :
    Fields × List CleanCall :=
  match fields with
  | [] => ([], [])
  | (k, v) :: rest =>
    let hd := deepSanitize cf v (ruleFor rules k)
    let tl := cleanObjectFields cf rest rules
    ((k, hd.1) :: tl.1, hd.2 ++ tl.2)

end

/-- A registry access, logged so that cache claims about "how often the
registry is queried" are expressible: a `Tools.available[name]` lookup, a
`Tools.getToolSettings(name)` call, a `Tools.inline[name]` lookup, or an
enumeration of all of `Tools.inline`. -/
inductive Query where
  | availableQ : String → Query
  | settingsQ : String → Query
  | inlineQ : String → Query
  | inlineAllQ : Query
deriving DecidableEq

/-- A tool class as seen by the sanitizer: only its published sanitize
config (the `SANITIZE_CONFIG` internal setting, i.e. the static `sanitize`
property; `undefined` when the tool does not declare one) is read. -/
structure ToolClass where
  sanitize : JVal

/-- The opaque tool registry collaborator (the `Tools` module, outside this
core): tool classes by name, per-tool settings objects, and the registered
inline tools with each one's published sanitize config, in registration
order. -/
structure ToolRegistry where
  available : String → ToolClass
  getToolSettings : String → JVal
  inline : List (String × JVal)

/-- The sanitizer's mutable state: the per-tool composed-config cache and
the aggregate inline-tools config cache. -/
structure SanitizerState where
  configCache : Fields
  inlineToolsConfigCache : Option JVal

/-- Both caches start empty (sanitizer.ts lines 49 and 54). -/
def initialState : SanitizerState := ⟨[], none⟩

/-- `getAllInlineToolsConfig` (sanitizer.ts line 218): on a cache hit,
return the cached object; otherwise fold `Object.assign(config, ...)` over
every registered inline tool's sanitize config (later tools override
earlier ones per key) and cache the result. -/
def getAllInlineToolsConfig (T : ToolRegistry) (st : SanitizerState) :
    JVal × SanitizerState × List Query :=
  match st.inlineToolsConfigCache with
  | some c => (c, st, [])
  | none =>
    let config := JVal.obj (T.inline.foldl (fun acc p => assignInto acc p.2) [])
    (config, { st with inlineToolsConfigCache := some config }, [.inlineAllQ])

/-- The enabled-tools branch of `getInlineToolsConfig` (sanitizer.ts lines
198–203): fold `Object.assign(config, Tools.inline[name][SANITIZE_CONFIG])`
over the listed tool names.  (Non-string list entries do not arise.)  Also
returns the `Tools.inline` lookups performed. -/
def enabledInlineUnion (T : ToolRegistry) (names : List JVal) (config : Fields) :
    Fields × List Query :=
  match names with
  | [] => (config, [])
  | .str n :: rest =>
    let r := enabledInlineUnion T rest (assignInto config ((lookupField T.inline n).getD .undefined))
    (r.1, .inlineQ n :: r.2)
  | _ :: rest => enabledInlineUnion T rest config

/-- `getInlineToolsConfig` (sanitizer.ts line 182): read the tool's
settings; `inlineToolbar || []` selects either the aggregate of all inline
tools (boolean `true`) or the union of the listed ones; then `br` and `wbr`
are forced to `true`.  In the `true` branch the returned object *is* the
aggregate cache object, so the forced writes mutate the cache: this is
modelled by updating `inlineToolsConfigCache` to the returned value. -/
def getInlineToolsConfig (T : ToolRegistry) (name : String) (st : SanitizerState) :
    JVal × SanitizerState × List Query :=
  let toolsConfig := T.getToolSettings name
  let raw := fieldOf toolsConfig "inlineToolbar"
  let enableInlineTools := if truthy raw then raw else .arr []
  match enableInlineTools with
  | .boolean true =>
    let r := getAllInlineToolsConfig T st
    let cfields := match r.1 with | .obj fs => fs | _ => []
    let config := JVal.obj (setField (setField cfields "br" (.boolean true)) "wbr" (.boolean true))
    (config, { r.2.1 with inlineToolsConfigCache := some config },
      [.settingsQ name] ++ r.2.2)
  | e =>
    let names := match e with | .arr l => l | _ => []
    let u := enabledInlineUnion T names []
    let config := JVal.obj (setField (setField u.1 "br" (.boolean true)) "wbr" (.boolean true))
    (config, st, [.settingsQ name] ++ u.2)

/-- The per-field merge loop of `composeToolConfig` (sanitizer.ts lines
159–169): an object-typed declared field rule is merged as
`Object.assign({}, baseConfig, rule)`; any other declared value is copied
through unchanged. -/
def composeFieldRules (baseConfig : JVal) (toolRules : Fields) : Fields :=
  toolRules.foldl
    (fun acc p =>
      if typeofObject p.2 then
        setField acc p.1 (.obj (assignInto (assignInto [] baseConfig) p.2))
      else
        setField acc p.1 p.2)
    []

/-- `composeToolConfig` (sanitizer.ts line 136): return a truthy cached
entry; otherwise look up the tool class and the inline base config; when
the tool declares no sanitize config (falsy) or an empty one, return the
base config *without caching it*; otherwise merge each declared field rule
over the base, cache and return the result. -/
def composeToolConfig (T : ToolRegistry) (toolName : String) (st : SanitizerState) :
    JVal × SanitizerState × List Query :=
  let cached := (lookupField st.configCache toolName).getD .undefined
  if truthy cached then
    (cached, st, [])
  else
    let toolClass := T.available toolName
    let r := getInlineToolsConfig T toolName st
    let baseConfig := r.1
    let st₁ := r.2.1
    let qs := [Query.availableQ toolName] ++ r.2.2
    if !truthy toolClass.sanitize || (truthy toolClass.sanitize && isEmpty toolClass.sanitize) then
      (baseConfig, st₁, qs)
    else
      let toolRules := match toolClass.sanitize with | .obj fs => fs | _ => []
      let toolConfig := JVal.obj (composeFieldRules baseConfig toolRules)
      (toolConfig, { st₁ with configCache := setField st₁.configCache toolName toolConfig }, qs)

/-- `sanitizeBlocks` (sanitizer.ts line 63): for each block in order,
compose its tool's config; when the composed config is empty leave the
block untouched, otherwise replace its data by `deepSanitize`.  The cache
state threads through the enumeration. -/
def sanitizeBlocks (T : ToolRegistry) (cf : CleanFn)
    (blocksData : List (String × JVal)) (st : SanitizerState) :
    List (String × JVal) × SanitizerState :=
  match blocksData with
  | [] => ([], st)
  | block :: rest =>
    let r := composeToolConfig T block.1 st
    let block' := if isEmpty r.1 then block else (block.1, (deepSanitize cf block.2 r.1).1)
    let tl := sanitizeBlocks T cf rest r.2.1
    (block' :: tl.1, tl.2)

/-! ### Generic lemmas about field lists -/

/-- Reading a field after a property write: the written key returns the new
value, every other key is unchanged. -/
theorem lookupField_setField (o : Fields) (k : String) (v : JVal) (k' : String) :
    lookupField (setField o k v) k' =
      if k' = k then some v else lookupField o k' := by
  induction o with
  | nil =>
    by_cases h' : k' = k
    · subst h'
      simp [setField, lookupField]
    · have hne : ¬ k = k' := fun hc => h' hc.symm
      simp [setField, lookupField, hne, h']
  | cons p rest ih =>
    obtain ⟨k₀, v₀⟩ := p
    by_cases h₀ : k₀ = k
    · subst h₀
      by_cases h' : k' = k₀
      · subst h'
        simp [setField, lookupField]
      · have hne : ¬ k₀ = k' := fun hc => h' hc.symm
        simp [setField, lookupField, hne, h']
    · by_cases h' : k' = k
      · subst h'
        simp [setField, lookupField, h₀, ih]
      · by_cases h₀' : k₀ = k'
        · subst h₀'
          simp [setField, lookupField, h₀, h']
        · simp [setField, lookupField, h₀, h₀', h', ih]

theorem lookupField_eq_none_of_not_mem (o : Fields) (k : String)
    (h : k ∉ o.map Prod.fst) : lookupField o k = none := by
  induction o with
  | nil => simp [lookupField]
  | cons p rest ih =>
    obtain ⟨k₀, v₀⟩ := p
    simp only [List.map_cons, List.mem_cons] at h
    push_neg at h
    have hk : ¬ k₀ = k := fun hc => h.1 hc.symm
    simp [lookupField, hk, ih h.2]

/-- Reading a field after `Object.assign(target, src)` where the source
object has pairwise distinct keys: keys of the source win, other keys fall
through to the target. -/
theorem lookupField_assignInto (fs : Fields) (t : Fields) (k : String)
    (h : (fs.map Prod.fst).Nodup) :
    lookupField (assignInto t (.obj fs)) k =
      match lookupField fs k with
      | some v => some v
      | none => lookupField t k := by
  induction fs generalizing t with
  | nil => simp [assignInto, lookupField]
  | cons p rest ih =>
    obtain ⟨k₀, v₀⟩ := p
    simp only [List.map_cons, List.nodup_cons] at h
    have step : assignInto t (.obj ((k₀, v₀) :: rest)) =
        assignInto (setField t k₀ v₀) (.obj rest) := by
      simp [assignInto]
    rw [step, ih (setField t k₀ v₀) h.2]
    by_cases hk : k = k₀
    · subst hk
      have : lookupField rest k = none :=
        lookupField_eq_none_of_not_mem rest k h.1
      simp [lookupField, this, lookupField_setField]
    · have : ¬ k₀ = k := fun hc => hk hc.symm
      simp [lookupField, this, lookupField_setField, hk]

/-! ### Shape relations for structure preservation -/

mutual

/-- Claim C5's relation between input and output: identical shape (same
array lengths, same object keys in the same order) and only string leaves
possibly altered; every non-string leaf must be returned unchanged. -/
def strOnlyCompat : JVal → JVal → Bool
  | .str _, .str _ => true
  | .num a, .num b => a == b
  | .boolean a, .boolean b => a == b
  | .null, .null => true
  | .undefined, .undefined => true
  | .fn a, .fn b => a == b
  | .arr xs, .arr ys => strOnlyCompatList xs ys
  | .obj fs, .obj gs => strOnlyCompatFields fs gs
  | _, _ => false

def strOnlyCompatList : List JVal → List JVal → Bool
  | [], [] => true
  | x :: xs, y :: ys => strOnlyCompat x y && strOnlyCompatList xs ys
  | _, _ => false

def strOnlyCompatFields : Fields → Fields → Bool
  | [], [] => true
  | (k, v) :: fs, (k', w) :: gs => k == k' && strOnlyCompat v w && strOnlyCompatFields fs gs
  | _, _ => false

end

mutual

/-- The relation `deepSanitize` actually preserves: identical shape with
only string leaves possibly altered, except that a `null` leaf comes back
as the empty object (the `typeof null === 'object'` branch). -/
def strNullCompat : JVal → JVal → Bool
  | .str _, .str _ => true
  | .null, .obj l => l.isEmpty
  | .num a, .num b => a == b
  | .boolean a, .boolean b => a == b
  | .undefined, .undefined => true
  | .fn a, .fn b => a == b
  | .arr xs, .arr ys => strNullCompatList xs ys
  | .obj fs, .obj gs => strNullCompatFields fs gs
  | _, _ => false

def strNullCompatList : List JVal → List JVal → Bool
  | [], [] => true
  | x :: xs, y :: ys => strNullCompat x y && strNullCompatList xs ys
  | _, _ => false

def strNullCompatFields : Fields → Fields → Bool
  | [], [] => true
  | (k, v) :: fs, (k', w) :: gs => k == k' && strNullCompat v w && strNullCompatFields fs gs
  | _, _ => false

end

mutual

theorem deepSanitize_strNullCompat (cf : CleanFn) (data rules : JVal) :
    strNullCompat data (deepSanitize cf data rules).1 = true := by
  cases data with
  | arr items =>
    simp only [deepSanitize, strNullCompat]
    exact cleanArray_strNullCompat cf items rules
  | obj fields =>
    simp only [deepSanitize, strNullCompat]
    exact cleanObjectFields_strNullCompat cf fields rules
  | null => simp [deepSanitize, strNullCompat]
  | str s => simp [deepSanitize, strNullCompat]
  | num n => simp [deepSanitize, strNullCompat]
  | boolean b => simp [deepSanitize, strNullCompat]
  | undefined => simp [deepSanitize, strNullCompat]
  | fn i => simp [deepSanitize, strNullCompat]

theorem cleanArray_strNullCompat (cf : CleanFn) (items : List JVal) (rules : JVal) :
    strNullCompatList items (cleanArray cf items rules).1 = true := by
  cases items with
  | nil => simp [cleanArray, strNullCompatList]
  | cons x xs =>
    simp only [cleanArray, strNullCompatList, Bool.and_eq_true]
    exact ⟨deepSanitize_strNullCompat cf x rules, cleanArray_strNullCompat cf xs rules⟩

theorem cleanObjectFields_strNullCompat (cf : CleanFn) (fields : Fields) (rules : JVal) :
    strNullCompatFields fields (cleanObjectFields cf fields rules).1 = true := by
  cases fields with
  | nil => simp [cleanObjectFields, strNullCompatFields]
  | cons p rest =>
    obtain ⟨k, v⟩ := p
    simp only [cleanObjectFields, strNullCompatFields, Bool.and_eq_true]
    exact ⟨⟨by simp, deepSanitize_strNullCompat cf v (ruleFor rules k)⟩,
      cleanObjectFields_strNullCompat cf rest rules⟩

end

/-! ### Helper lemmas about the tree sanitizer -/

/-- A concrete cleaning primitive used in witnesses and counterexamples:
it tags its input, so cleaned strings are distinguishable from the
originals. -/
def sampleClean : CleanFn := fun s _ => "cleaned:" ++ s

/-- `cleanObject` keeps the keys in order and sanitizes each field's value
with the rule selected by `ruleFor`. -/
theorem cleanObjectFields_eq_map (cf : CleanFn) (fields : Fields) (rules : JVal) :
    (cleanObjectFields cf fields rules).1 =
      fields.map (fun p => (p.1, (deepSanitize cf p.2 (ruleFor rules p.1)).1)) := by
  induction fields with
  | nil => simp [cleanObjectFields]
  | cons p rest ih =>
    obtain ⟨k, v⟩ := p
    simp [cleanObjectFields, ih]

/-! ### Claim C1 -/

/-- Claim C1, counterexample: `deepSanitize` does *not* return `null`
unchanged — `typeof null === 'object'`, so `null` goes through
`cleanObject`, whose `for..in` iterates nothing, and comes back as the
empty object. -/
theorem c1_counterexample :
    (deepSanitize sampleClean JVal.null (JVal.obj [])).1 = JVal.obj [] ∧
    (deepSanitize sampleClean JVal.null (JVal.obj [])).1 ≠ JVal.null := by
  refine ⟨by simp [deepSanitize], ?_⟩
  simp [deepSanitize]

/-- Claim C1 (amended): for every rule set and every cleaning primitive,
number, boolean and absent (`undefined`) inputs are returned unchanged and
the cleaning primitive is never invoked on them; a `null` input is also
never passed to the cleaning primitive, but it is returned as the empty
object rather than unchanged. -/
theorem c1_amended (cf : CleanFn) (rules : JVal) (n : Int) (b : Bool) :
    deepSanitize cf (JVal.num n) rules = (JVal.num n, []) ∧
    deepSanitize cf (JVal.boolean b) rules = (JVal.boolean b, []) ∧
    deepSanitize cf JVal.undefined rules = (JVal.undefined, []) ∧
    deepSanitize cf JVal.null rules = (JVal.obj [], []) := by
  refine ⟨?_, ?_, ?_, ?_⟩ <;> simp [deepSanitize]

/-! ### Claim C5 -/

/-- Claim C5, counterexample: a sequence containing a `null` leaf is not
returned with only string leaves altered — the `null` element becomes the
empty object. -/
theorem c5_counterexample :
    strOnlyCompat (JVal.arr [JVal.null])
      (deepSanitize sampleClean (JVal.arr [JVal.null]) (JVal.obj [])).1 = false ∧
    (deepSanitize sampleClean (JVal.arr [JVal.null]) (JVal.obj [])).1 =
      JVal.arr [JVal.obj []] := by
  refine ⟨?_, ?_⟩ <;>
    simp [deepSanitize, cleanArray, strOnlyCompat, strOnlyCompatList]

/-- Claim C5 (amended): for every input and rule set, `deepSanitize`
returns a value of identical shape — same sequence lengths, same mapping
keys in the same order — in which only string leaves and `null` leaves may
differ from the input; a `null` leaf comes back as the empty mapping. -/
theorem c5_amended (cf : CleanFn) (data rules : JVal) :
    strNullCompat data (deepSanitize cf data rules).1 = true :=
  deepSanitize_strNullCompat cf data rules

/-! ### Claim C7 -/

/-- Claim C7 (confirmed): a mapping field whose name exists in the rule set
but whose rule value is a plain number (not rule-shaped) is sanitized with
the parent rule set: the selected rule `ruleFor rules f` is the parent
`rules` itself, and every field of a mapping is sanitized with its selected
rule. -/
theorem c7_nonrule_passthrough (cf : CleanFn) (rules : JVal) (fields : Fields)
    (f : String) (k : Int) (hf : fieldOf rules f = JVal.num k) :
    ruleFor rules f = rules ∧
    (deepSanitize cf (JVal.obj fields) rules).1 =
      JVal.obj (fields.map (fun p => (p.1, (deepSanitize cf p.2 (ruleFor rules p.1)).1))) := by
  constructor
  · simp [ruleFor, hf, isRule, typeofObject, typeofBoolean, isFunction]
  · simp [deepSanitize, cleanObjectFields_eq_map]

/-- Claim C7, witness: with rules `{level: 7}` the field `level`'s rule is
not rule-shaped, so its string value is sanitized with the parent rules
(which allow nothing string-specific here: the parent rules are an object,
so the string is cleaned with them). -/
theorem c7_witness :
    ruleFor (JVal.obj [("level", JVal.num 7)]) "level" = JVal.obj [("level", JVal.num 7)] ∧
    (deepSanitize sampleClean (JVal.obj [("level", JVal.str "x")])
        (JVal.obj [("level", JVal.num 7)])).1 =
      JVal.obj [("level",
        (deepSanitize sampleClean (JVal.str "x")
          (ruleFor (JVal.obj [("level", JVal.num 7)]) "level")).1)] := by
  have h := c7_nonrule_passthrough sampleClean (JVal.obj [("level", JVal.num 7)])
    [("level", JVal.str "x")] "level" 7 (by simp [fieldOf, lookupField])
  exact ⟨h.1, by simpa using h.2⟩

/-! ### Claim C10 -/

/-- Claim C10 (confirmed): `isRule` accepts `null` (because
`typeof null === 'object'`), so a field whose declared rule is `null`
carries its own rule: its string content is passed to the cleaning
primitive with the `null` rule, not sanitized with the parent rule set. -/
theorem c10_null_rule (cf : CleanFn) (rules : JVal) (f s : String)
    (hf : fieldOf rules f = JVal.null) :
    isRule JVal.null = true ∧
    ruleFor rules f = JVal.null ∧
    deepSanitize cf (JVal.obj [(f, JVal.str s)]) rules =
      (JVal.obj [(f, JVal.str (cf s JVal.null))], [(s, JVal.null)]) := by
  refine ⟨by simp [isRule, typeofObject], ?_, ?_⟩
  · simp [ruleFor, hf, isRule, typeofObject]
  · simp [deepSanitize, cleanObjectFields, cleanOneItem, ruleFor, hf, isRule,
      typeofObject, clean]

/-- Claim C10, witness: with rules `{text: null}` the string field `text`
is passed to the cleaning primitive with the `null` rule. -/
theorem c10_witness :
    deepSanitize sampleClean (JVal.obj [("text", JVal.str "hi")])
        (JVal.obj [("text", JVal.null)]) =
      (JVal.obj [("text", JVal.str (sampleClean "hi" JVal.null))], [("hi", JVal.null)]) :=
  (c10_null_rule sampleClean (JVal.obj [("text", JVal.null)]) "text" "hi"
    (by simp [fieldOf, lookupField])).2.2

/-! ### A concrete registry for witnesses and counterexamples -/

/-- Tool classes of the demo registry: `header` declares `{text: {a: true}}`,
`quote` declares `{text: {br: false}}`, every other tool (e.g. `paragraph`)
declares no sanitize config. -/
def demoAvailable : String → ToolClass := fun n =>
  if n = "header" then ⟨.obj [("text", .obj [("a", .boolean true)])]⟩
  else if n = "quote" then ⟨.obj [("text", .obj [("br", .boolean false)])]⟩
  else ⟨.undefined⟩

/-- Tool settings of the demo registry: `paragraph` enables all inline
tools, `header` enables only `link`, `list` disables the inline toolbar,
everything else has no `inlineToolbar` setting. -/
def demoSettings : String → JVal := fun n =>
  if n = "paragraph" then .obj [("inlineToolbar", .boolean true)]
  else if n = "header" then .obj [("inlineToolbar", .arr [.str "link"])]
  else if n = "list" then .obj [("inlineToolbar", .boolean false)]
  else .obj []

/-- The demo registry: two inline tools, `bold` with rules `{b: true}` and
`link` with rules `{a: {href: true}, b: true, br: false}` (note the
explicit `br: false`, later forced back to `true`). -/
def demoRegistry : ToolRegistry :=
  ⟨demoAvailable, demoSettings,
    [("bold", .obj [("b", .boolean true)]),
     ("link", .obj [("a", .obj [("href", .boolean true)]),
                    ("b", .boolean true),
                    ("br", .boolean false)])]⟩

/-! ### Claim C2 -/

/-- Claim C2 (confirmed): composing the `header` tool, whose declared rule
for field `text` is `{a: true}`, over its base inline set
`{a: {href: true}, b: true, br: true, wbr: true}` (from the enabled `link`
tool plus the forced line breaks) yields a field rule with `a ↦ true` and
`b ↦ true`: declared entries override same-keyed base entries, and every
base key the declared rule omits is inherited unchanged. -/
theorem c2_rule_precedence :
    fieldOf (getInlineToolsConfig demoRegistry "header" initialState).1 "a" =
      JVal.obj [("href", JVal.boolean true)] ∧
    fieldOf (getInlineToolsConfig demoRegistry "header" initialState).1 "b" =
      JVal.boolean true ∧
    fieldOf (fieldOf (composeToolConfig demoRegistry "header" initialState).1 "text") "a" =
      JVal.boolean true ∧
    fieldOf (fieldOf (composeToolConfig demoRegistry "header" initialState).1 "text") "b" =
      JVal.boolean true ∧
    ∀ k, k ≠ "a" →
      fieldOf (fieldOf (composeToolConfig demoRegistry "header" initialState).1 "text") k =
        fieldOf (getInlineToolsConfig demoRegistry "header" initialState).1 k := by
  refine ⟨rfl, rfl, rfl, rfl, ?_⟩
  intro k hk
  have hk' : ¬ "a" = k := fun h => hk h.symm
  have hbase : (getInlineToolsConfig demoRegistry "header" initialState).1 =
      JVal.obj [("a", JVal.obj [("href", JVal.boolean true)]), ("b", JVal.boolean true),
        ("br", JVal.boolean true), ("wbr", JVal.boolean true)] := rfl
  have hcomp : fieldOf (composeToolConfig demoRegistry "header" initialState).1 "text" =
      JVal.obj [("a", JVal.boolean true), ("b", JVal.boolean true),
        ("br", JVal.boolean true), ("wbr", JVal.boolean true)] := rfl
  rw [hbase, hcomp]
  simp [fieldOf, lookupField, hk']

/-- Claim C2, witness: the base key `b`, omitted by the declared field
rule, is inherited from the base set. -/
theorem c2_witness :
    fieldOf (fieldOf (composeToolConfig demoRegistry "header" initialState).1 "text") "b" =
      fieldOf (getInlineToolsConfig demoRegistry "header" initialState).1 "b" :=
  c2_rule_precedence.2.2.2.2 "b" (by decide)

/-! ### Claim C3 -/

/-- Claim C3, counterexample: the composed config of the `quote` tool—whose
declared rules are `{text: {br: false}}`—has *no* top-level `br` key at all
(its top level is keyed by field names), and inside the `text` field the
declared `br: false` overrides the forced `br: true` of the base. -/
theorem c3_counterexample :
    fieldOf (composeToolConfig demoRegistry "quote" initialState).1 "br" = JVal.undefined ∧
    fieldOf (fieldOf (composeToolConfig demoRegistry "quote" initialState).1 "text") "br" =
      JVal.boolean false := ⟨rfl, rfl⟩

/-- Every config returned by `getInlineToolsConfig` ends with the two
forced line-break writes. -/
theorem getInlineToolsConfig_shape (T : ToolRegistry) (name : String) (st : SanitizerState) :
    ∃ X, (getInlineToolsConfig T name st).1 =
      .obj (setField (setField X "br" (.boolean true)) "wbr" (.boolean true)) := by
  simp only [getInlineToolsConfig]
  split
  · exact ⟨_, rfl⟩
  · exact ⟨_, rfl⟩

/-- Reading `br` and `wbr` after the two forced writes. -/
theorem lookupField_forced (X : Fields) :
    lookupField (setField (setField X "br" (.boolean true)) "wbr" (.boolean true)) "br" =
      some (.boolean true) ∧
    lookupField (setField (setField X "br" (.boolean true)) "wbr" (.boolean true)) "wbr" =
      some (.boolean true) := by
  constructor
  · rw [lookupField_setField]
    simp [lookupField_setField]
  · rw [lookupField_setField]
    simp

/-- Claim C3 (amended): every rule set returned by `GetInlineToolsConfig`
contains `br ↦ true` and `wbr ↦ true`, whatever the upstream rules say; and
`ComposeToolConfig` returns such a rule set whenever the tool declares no
sanitize config and the composed-config cache has no truthy entry for the
tool.  (When the tool does declare rules, the composed result is keyed by
field names and carries no top-level line-break keys, and a declared field
rule may override the forced `br`/`wbr` inside its field.) -/
theorem c3_amended :
    (∀ (T : ToolRegistry) (name : String) (st : SanitizerState),
      fieldOf (getInlineToolsConfig T name st).1 "br" = JVal.boolean true ∧
      fieldOf (getInlineToolsConfig T name st).1 "wbr" = JVal.boolean true) ∧
    (∀ (T : ToolRegistry) (name : String) (st : SanitizerState),
      truthy ((lookupField st.configCache name).getD .undefined) = false →
      truthy (T.available name).sanitize = false →
      fieldOf (composeToolConfig T name st).1 "br" = JVal.boolean true ∧
      fieldOf (composeToolConfig T name st).1 "wbr" = JVal.boolean true) := by
  have hinline : ∀ (T : ToolRegistry) (name : String) (st : SanitizerState),
      fieldOf (getInlineToolsConfig T name st).1 "br" = JVal.boolean true ∧
      fieldOf (getInlineToolsConfig T name st).1 "wbr" = JVal.boolean true := by
    intro T name st
    obtain ⟨X, hX⟩ := getInlineToolsConfig_shape T name st
    rw [hX]
    have h := lookupField_forced X
    simp [fieldOf, h.1, h.2]
  refine ⟨hinline, ?_⟩
  intro T name st hcache hs
  have hbase : (composeToolConfig T name st).1 = (getInlineToolsConfig T name st).1 := by
    simp [composeToolConfig, hcache, hs]
  rw [hbase]
  exact hinline T name st

/-- Claim C3 (amended), witness: the `paragraph` tool of the demo registry
declares no sanitize config, so its composed config carries the forced
line-break keys; note the enabled `link` inline tool had declared
`br: false` and is overridden. -/
theorem c3_witness :
    fieldOf (composeToolConfig demoRegistry "paragraph" initialState).1 "br" =
      JVal.boolean true ∧
    fieldOf (composeToolConfig demoRegistry "paragraph" initialState).1 "wbr" =
      JVal.boolean true :=
  c3_amended.2 demoRegistry "paragraph" initialState rfl rfl

/-! ### Claim C9 -/

/-- Claim C9 (confirmed): when a tool's settings enable all inline tools,
the object returned by `getInlineToolsConfig` *is* the aggregate cache
object, so the forced line-break writes mutate the cache: afterwards the
cache holds exactly the returned value, every later
`getAllInlineToolsConfig` returns that same value (with `br ↦ true` and
`wbr ↦ true`) without touching the registry, and on all other keys the
returned value agrees with the aggregate of the inline tools' rules. -/
theorem c9_aggregate_cache_mutation (T : ToolRegistry) (name : String)
    (st : SanitizerState) (cfs : Fields)
    (hset : fieldOf (T.getToolSettings name) "inlineToolbar" = JVal.boolean true)
    (hagg : (getAllInlineToolsConfig T st).1 = JVal.obj cfs) :
    (getInlineToolsConfig T name st).2.1.inlineToolsConfigCache =
      some (getInlineToolsConfig T name st).1 ∧
    fieldOf (getInlineToolsConfig T name st).1 "br" = JVal.boolean true ∧
    fieldOf (getInlineToolsConfig T name st).1 "wbr" = JVal.boolean true ∧
    getAllInlineToolsConfig T (getInlineToolsConfig T name st).2.1 =
      ((getInlineToolsConfig T name st).1, (getInlineToolsConfig T name st).2.1, []) ∧
    (∀ k, k ≠ "br" → k ≠ "wbr" →
      fieldOf (getInlineToolsConfig T name st).1 k = fieldOf (JVal.obj cfs) k) := by
  have hmain : getInlineToolsConfig T name st =
      (JVal.obj (setField (setField cfs "br" (.boolean true)) "wbr" (.boolean true)),
       ⟨(getAllInlineToolsConfig T st).2.1.configCache,
        some (JVal.obj (setField (setField cfs "br" (.boolean true)) "wbr" (.boolean true)))⟩,
       [.settingsQ name] ++ (getAllInlineToolsConfig T st).2.2) := by
    simp [getInlineToolsConfig, hset, truthy, hagg]
  have hforced := lookupField_forced cfs
  refine ⟨by rw [hmain], ?_, ?_, ?_, ?_⟩
  · rw [hmain]
    simp [fieldOf, hforced.1]
  · rw [hmain]
    simp [fieldOf, hforced.2]
  · rw [hmain]
    simp [getAllInlineToolsConfig]
  · intro k hbr hwbr
    rw [hmain]
    have h₁ : ¬ k = "wbr" := hwbr
    have h₂ : ¬ k = "br" := hbr
    simp [fieldOf, lookupField_setField, h₁, h₂]

/-- Claim C9, witness: composing the inline config of `paragraph` (whose
settings enable all inline tools) permanently stores the returned object,
`br` included, in the aggregate cache. -/
theorem c9_witness :
    (getInlineToolsConfig demoRegistry "paragraph" initialState).2.1.inlineToolsConfigCache =
      some (getInlineToolsConfig demoRegistry "paragraph" initialState).1 ∧
    fieldOf (getInlineToolsConfig demoRegistry "paragraph" initialState).1 "br" =
      JVal.boolean true ∧
    getAllInlineToolsConfig demoRegistry
        (getInlineToolsConfig demoRegistry "paragraph" initialState).2.1 =
      ((getInlineToolsConfig demoRegistry "paragraph" initialState).1,
       (getInlineToolsConfig demoRegistry "paragraph" initialState).2.1, []) := by
  have h := c9_aggregate_cache_mutation demoRegistry "paragraph" initialState
    [("b", JVal.boolean true),
     ("a", JVal.obj [("href", JVal.boolean true)]),
     ("br", JVal.boolean false)] rfl rfl
  exact ⟨h.1, h.2.1, h.2.2.2.1⟩

/-! ### Claim C6 -/

/-- Claim C6 (confirmed): `getInlineToolsConfig` selects its result from
the tool's `inlineToolbar` setting — boolean `true` takes the aggregate of
all inline tools (via the aggregate cache), an explicit list takes the
union of only the named tools' rule sets folded in list order, and a falsy
setting yields the empty rule set (before the forced line-break keys are
added); in the list union, a key declared by both named tools resolves to
the later tool's entry. -/
theorem c6_inline_config_selection :
    (∀ (T : ToolRegistry) (name : String) (st : SanitizerState) (cfs : Fields),
      fieldOf (T.getToolSettings name) "inlineToolbar" = JVal.boolean true →
      (getAllInlineToolsConfig T st).1 = JVal.obj cfs →
      (getInlineToolsConfig T name st).1 =
        .obj (setField (setField cfs "br" (.boolean true)) "wbr" (.boolean true))) ∧
    (∀ (T : ToolRegistry) (name : String) (st : SanitizerState) (names : List JVal),
      fieldOf (T.getToolSettings name) "inlineToolbar" = JVal.arr names →
      (getInlineToolsConfig T name st).1 =
        .obj (setField (setField (enabledInlineUnion T names []).1 "br" (.boolean true))
          "wbr" (.boolean true))) ∧
    (∀ (T : ToolRegistry) (name : String) (st : SanitizerState),
      truthy (fieldOf (T.getToolSettings name) "inlineToolbar") = false →
      (getInlineToolsConfig T name st).1 =
        .obj [("br", JVal.boolean true), ("wbr", JVal.boolean true)]) ∧
    (∀ (T : ToolRegistry) (n₁ n₂ k : String) (fs₁ fs₂ : Fields),
      lookupField T.inline n₁ = some (.obj fs₁) →
      lookupField T.inline n₂ = some (.obj fs₂) →
      (fs₁.map Prod.fst).Nodup →
      (fs₂.map Prod.fst).Nodup →
      lookupField (enabledInlineUnion T [.str n₁, .str n₂] []).1 k =
        (match lookupField fs₂ k with
         | some v => some v
         | none => lookupField fs₁ k)) := by
  refine ⟨?_, ?_, ?_, ?_⟩
  · intro T name st cfs hset hagg
    simp [getInlineToolsConfig, hset, truthy, hagg]
  · intro T name st names hset
    simp [getInlineToolsConfig, hset, truthy]
  · intro T name st hset
    simp [getInlineToolsConfig, hset, enabledInlineUnion, setField]
  · intro T n₁ n₂ k fs₁ fs₂ h₁ h₂ nd₁ nd₂
    have hu : (enabledInlineUnion T [.str n₁, .str n₂] []).1 =
        assignInto (assignInto [] (.obj fs₁)) (.obj fs₂) := by
      simp [enabledInlineUnion, h₁, h₂]
    rw [hu, lookupField_assignInto fs₂ _ k nd₂]
    cases hl₂ : lookupField fs₂ k with
    | some v => rfl
    | none =>
      rw [lookupField_assignInto fs₁ [] k nd₁]
      cases hl₁ : lookupField fs₁ k with
      | some v => rfl
      | none => simp [lookupField]

/-- Claim C6, witness: in the demo registry, `paragraph` (setting `true`)
gets the aggregate plus forced line breaks, `header` (setting `["link"]`)
gets the union of only `link`'s rules plus forced line breaks, `quote`
(no setting) gets only the forced line breaks, and in the union over
`["bold", "link"]` the key `b`, declared by both, resolves to `link`'s
entry. -/
theorem c6_witness :
    (getInlineToolsConfig demoRegistry "paragraph" initialState).1 =
      .obj (setField (setField
        [("b", JVal.boolean true),
         ("a", JVal.obj [("href", JVal.boolean true)]),
         ("br", JVal.boolean false)] "br" (.boolean true)) "wbr" (.boolean true)) ∧
    (getInlineToolsConfig demoRegistry "header" initialState).1 =
      .obj (setField (setField (enabledInlineUnion demoRegistry [.str "link"] []).1
        "br" (.boolean true)) "wbr" (.boolean true)) ∧
    (getInlineToolsConfig demoRegistry "quote" initialState).1 =
      .obj [("br", JVal.boolean true), ("wbr", JVal.boolean true)] ∧
    lookupField (enabledInlineUnion demoRegistry [.str "bold", .str "link"] []).1 "b" =
      some (JVal.boolean true) := by
  refine ⟨?_, ?_, ?_, ?_⟩
  · exact c6_inline_config_selection.1 demoRegistry "paragraph" initialState
      [("b", JVal.boolean true),
       ("a", JVal.obj [("href", JVal.boolean true)]),
       ("br", JVal.boolean false)] rfl rfl
  · exact c6_inline_config_selection.2.1 demoRegistry "header" initialState [.str "link"] rfl
  · exact c6_inline_config_selection.2.2.1 demoRegistry "quote" initialState rfl
  · rw [c6_inline_config_selection.2.2.2 demoRegistry "bold" "link" "b"
      [("b", JVal.boolean true)]
      [("a", JVal.obj [("href", JVal.boolean true)]), ("b", JVal.boolean true),
       ("br", JVal.boolean false)] rfl rfl (by decide) (by decide)]
    rfl

/-! ### Claim C4 -/

/-- The inline-union loop only performs `Tools.inline` lookups. -/
theorem enabledInlineUnion_queries (T : ToolRegistry) (names : List JVal) (config : Fields) :
    ∀ q ∈ (enabledInlineUnion T names config).2, ∃ m, q = Query.inlineQ m := by
  induction names generalizing config with
  | nil => simp [enabledInlineUnion]
  | cons e rest ih =>
    cases e with
    | str n =>
      intro q hq
      simp only [enabledInlineUnion, List.mem_cons] at hq
      rcases hq with h | h
      · exact ⟨n, h⟩
      · exact ih _ q h
    | num a => exact fun q hq => ih config q (by simpa [enabledInlineUnion] using hq)
    | boolean b => exact fun q hq => ih config q (by simpa [enabledInlineUnion] using hq)
    | null => exact fun q hq => ih config q (by simpa [enabledInlineUnion] using hq)
    | undefined => exact fun q hq => ih config q (by simpa [enabledInlineUnion] using hq)
    | fn i => exact fun q hq => ih config q (by simpa [enabledInlineUnion] using hq)
    | arr l => exact fun q hq => ih config q (by simpa [enabledInlineUnion] using hq)
    | obj fs => exact fun q hq => ih config q (by simpa [enabledInlineUnion] using hq)

/-- The aggregate builder touches the registry at most once (only on a
cache miss, enumerating the inline tools). -/
theorem getAllInlineToolsConfig_queries (T : ToolRegistry) (st : SanitizerState) :
    (getAllInlineToolsConfig T st).2.2 = [] ∨
    (getAllInlineToolsConfig T st).2.2 = [Query.inlineAllQ] := by
  cases h : st.inlineToolsConfigCache <;> simp [getAllInlineToolsConfig, h]

/-- Every query performed by `getInlineToolsConfig` is the single
`getToolSettings` call, an inline-tool lookup, or the aggregate
enumeration. -/
theorem getInlineToolsConfig_queries (T : ToolRegistry) (name : String) (st : SanitizerState) :
    ∃ rest, (getInlineToolsConfig T name st).2.2 = Query.settingsQ name :: rest ∧
      ∀ q ∈ rest, (∃ m, q = Query.inlineQ m) ∨ q = Query.inlineAllQ := by
  simp only [getInlineToolsConfig]
  split
  · refine ⟨(getAllInlineToolsConfig T st).2.2, rfl, ?_⟩
    intro q hq
    rcases getAllInlineToolsConfig_queries T st with h | h <;> rw [h] at hq
    · simp at hq
    · simp only [List.mem_singleton] at hq
      exact Or.inr hq
  · refine ⟨_, rfl, ?_⟩
    intro q hq
    exact Or.inl (enabledInlineUnion_queries T _ [] q hq)

/-- Counting registry queries during one `getInlineToolsConfig` call: no
`Tools.available` lookup at all, exactly one `getToolSettings` call. -/
theorem getInlineToolsConfig_counts (T : ToolRegistry) (name m : String) (st : SanitizerState) :
    (getInlineToolsConfig T name st).2.2.count (Query.availableQ m) = 0 ∧
    (getInlineToolsConfig T name st).2.2.count (Query.settingsQ name) = 1 := by
  obtain ⟨rest, heq, hmem⟩ := getInlineToolsConfig_queries T name st
  have hav : Query.availableQ m ∉ rest := by
    intro hq
    rcases hmem _ hq with ⟨m', hm'⟩ | hm' <;> simp_all
  have hst : Query.settingsQ name ∉ rest := by
    intro hq
    rcases hmem _ hq with ⟨m', hm'⟩ | hm' <;> simp_all
  rw [heq]
  constructor
  · simp [List.count_cons, List.count_eq_zero.mpr hav]
  · simp [List.count_cons, List.count_eq_zero.mpr hst]

/-- Claim C4, counterexample: the `paragraph` tool declares no sanitize
config, so `composeToolConfig` takes the base-config path, which is *not*
cached: two successive calls query `Tools.available["paragraph"]` twice
(and the per-tool cache stays empty after the first call), contradicting
"the registry is queried at most once for that tool name across the two
calls". -/
theorem c4_counterexample :
    ((composeToolConfig demoRegistry "paragraph" initialState).2.2 ++
        (composeToolConfig demoRegistry "paragraph"
          (composeToolConfig demoRegistry "paragraph" initialState).2.1).2.2).count
      (Query.availableQ "paragraph") = 2 ∧
    ¬ (((composeToolConfig demoRegistry "paragraph" initialState).2.2 ++
        (composeToolConfig demoRegistry "paragraph"
          (composeToolConfig demoRegistry "paragraph" initialState).2.1).2.2).count
      (Query.availableQ "paragraph") ≤ 1) ∧
    (composeToolConfig demoRegistry "paragraph" initialState).2.1.configCache = [] := by
  refine ⟨rfl, ?_, rfl⟩
  intro hle
  have h2 : ((composeToolConfig demoRegistry "paragraph" initialState).2.2 ++
      (composeToolConfig demoRegistry "paragraph"
        (composeToolConfig demoRegistry "paragraph" initialState).2.1).2.2).count
      (Query.availableQ "paragraph") = 2 := rfl
  rw [h2] at hle
  omega

/-- Claim C4 (amended): for a tool whose class declares a *non-empty*
sanitize config, and whose composed config is not yet cached, the first
`composeToolConfig` call stores the result in the per-tool cache and the
second call returns exactly the cached object with no state change and no
registry queries at all; each registry access for that tool name
(`Tools.available` lookup, `getToolSettings` call) therefore happens
exactly once across the two calls.  (For tools without declared rules the
result is not cached and the registry is re-queried on every call, as the
counterexample shows.) -/
theorem c4_amended (T : ToolRegistry) (name : String) (st : SanitizerState)
    (p : String × JVal) (fs : Fields)
    (hmiss : lookupField st.configCache name = none)
    (hsan : (T.available name).sanitize = JVal.obj (p :: fs)) :
    composeToolConfig T name (composeToolConfig T name st).2.1 =
      ((composeToolConfig T name st).1, (composeToolConfig T name st).2.1, []) ∧
    lookupField (composeToolConfig T name st).2.1.configCache name =
      some (composeToolConfig T name st).1 ∧
    ((composeToolConfig T name st).2.2 ++
        (composeToolConfig T name (composeToolConfig T name st).2.1).2.2).count
      (Query.availableQ name) = 1 ∧
    ((composeToolConfig T name st).2.2 ++
        (composeToolConfig T name (composeToolConfig T name st).2.1).2.2).count
      (Query.settingsQ name) = 1 := by
  have h1 : composeToolConfig T name st =
      (JVal.obj (composeFieldRules (getInlineToolsConfig T name st).1 (p :: fs)),
       ⟨setField (getInlineToolsConfig T name st).2.1.configCache name
          (JVal.obj (composeFieldRules (getInlineToolsConfig T name st).1 (p :: fs))),
        (getInlineToolsConfig T name st).2.1.inlineToolsConfigCache⟩,
       Query.availableQ name :: (getInlineToolsConfig T name st).2.2) := by
    simp [composeToolConfig, hmiss, truthy, hsan, isEmpty]
  have hcache : lookupField (composeToolConfig T name st).2.1.configCache name =
      some (composeToolConfig T name st).1 := by
    rw [h1]
    simp [lookupField_setField]
  have h2 : composeToolConfig T name (composeToolConfig T name st).2.1 =
      ((composeToolConfig T name st).1, (composeToolConfig T name st).2.1, []) := by
    conv_lhs => rw [composeToolConfig]
    rw [hcache]
    have ht : truthy (composeToolConfig T name st).1 = true := by
      rw [h1]
      simp [truthy]
    simp [ht]
  refine ⟨h2, hcache, ?_, ?_⟩
  · rw [h2, h1]
    simp [List.count_cons, (getInlineToolsConfig_counts T name name st).1]
  · rw [h2, h1]
    simp [List.count_cons, (getInlineToolsConfig_counts T name name st).2]

/-- Claim C4 (amended), witness: the `header` tool declares non-empty
rules, so the second composition is a pure cache hit. -/
theorem c4_witness :
    composeToolConfig demoRegistry "header"
        (composeToolConfig demoRegistry "header" initialState).2.1 =
      ((composeToolConfig demoRegistry "header" initialState).1,
       (composeToolConfig demoRegistry "header" initialState).2.1, []) ∧
    ((composeToolConfig demoRegistry "header" initialState).2.2 ++
        (composeToolConfig demoRegistry "header"
          (composeToolConfig demoRegistry "header" initialState).2.1).2.2).count
      (Query.availableQ "header") = 1 := by
  have h := c4_amended demoRegistry "header" initialState
    ("text", JVal.obj [("a", JVal.boolean true)]) [] rfl rfl
  exact ⟨h.1, h.2.2.1⟩

/-! ### Claim C8 -/

/-- `sanitizeBlocks` never changes a block's tool name. -/
theorem sanitizeBlocks_map_fst (T : ToolRegistry) (cf : CleanFn)
    (blocksData : List (String × JVal)) (st : SanitizerState) :
    (sanitizeBlocks T cf blocksData st).1.map Prod.fst = blocksData.map Prod.fst := by
  induction blocksData generalizing st with
  | nil => simp [sanitizeBlocks]
  | cons b rest ih =>
    obtain ⟨t, d⟩ := b
    simp only [sanitizeBlocks, List.map_cons]
    split <;> simp [ih]

/-- Claim C8 (confirmed): `sanitizeBlocks` composes each entry's tool
config in order; an entry whose composed config is empty is left untouched,
any other entry has its data replaced by `deepSanitize` with the composed
config; the output batch has the same length and the same tool names in
the same order as the input. -/
theorem c8_sanitize_batch (T : ToolRegistry) (cf : CleanFn) (st : SanitizerState)
    (tool : String) (data : JVal) (rest blocksData : List (String × JVal)) :
    sanitizeBlocks T cf [] st = ([], st) ∧
    sanitizeBlocks T cf ((tool, data) :: rest) st =
      ((if isEmpty (composeToolConfig T tool st).1 then (tool, data)
        else (tool, (deepSanitize cf data (composeToolConfig T tool st).1).1)) ::
          (sanitizeBlocks T cf rest (composeToolConfig T tool st).2.1).1,
       (sanitizeBlocks T cf rest (composeToolConfig T tool st).2.1).2) ∧
    (sanitizeBlocks T cf blocksData st).1.map Prod.fst = blocksData.map Prod.fst ∧
    (sanitizeBlocks T cf blocksData st).1.length = blocksData.length := by
  refine ⟨rfl, ?_, sanitizeBlocks_map_fst T cf blocksData st, ?_⟩
  · simp only [sanitizeBlocks]
  · have h := congrArg List.length (sanitizeBlocks_map_fst T cf blocksData st)
    simpa using h

end Sanitizer
